import Mathlib


/-!
Shallow embedding of the consul-kv-sync reconciliation core
(src/lib/workflow.js) and proofs about it.

Modelling conventions:
* JavaScript values appearing in parsed JSON manifests are modelled by
  `JVal`.  JavaScript numbers are modelled by `JSNum`: a finite number is
  an integer (`JSNum.fin`), and `JSNum.nonfinite` stands for NaN and the
  infinities (the code only distinguishes finite from non-finite numbers
  via lodash `_.isFinite`).
* The external `json-ptr` library's `list` (pre-order flattening of a
  JSON tree into pointer/value pairs) is modelled by `jptrFrom`, with the
  standard JSON-pointer token escaping (`~` → `~0`, `/` → `~1`).
* The consul store adapter is an oracle: `observed` is the key list the
  store returns for the single `keysAsync('')` call made by
  `getExistingKeys`, and `setOk` / `delOk` give the success of each
  dispatched `setAsync` / `delAsync`.
* A run is modelled as the deterministic sequence of store operations the
  promise chain dispatches (`Event` list), together with the final
  `workflow.stats`, `workflow.config` and the derived top-level prefix.
  The put phase dispatches one `setAsync` per desired entry (the `_.map`
  callback body runs synchronously: counter increment, filtering of the
  existing-key list, dispatch); the `Promise.all` join settles before
  `del` runs, and `del` runs only when every put succeeded.
-/

namespace KvSync

/-- Finiteness of a JavaScript number, as distinguished by lodash `_.isFinite`. -/
inductive JSNum where
  | fin (v : Int)
  | nonfinite
deriving DecidableEq

/-- Parsed JSON values (the result of `JSON.parse` on a manifest file). -/
inductive JVal where
  | str (s : String)
  | num (n : JSNum)
  | boolean (b : Bool)
  | null
  | obj (fields : List (String × JVal))
  | arr (elems : List JVal)

/-- Store operations dispatched by a run, in dispatch order. -/
inductive Event where
  | listKeys (path : String)
  | setKey (key : String) (value : String)
  | deleteKey (key : String)
deriving DecidableEq

/-- Mirror of `workflow.stats`. -/
structure Stats where
  put : Nat
  deleted : Nat
deriving DecidableEq

/-- Errors thrown by `readPointers`. -/
inductive LoadError where
  | schemaError (msg : String)
  | consistencyError (msg : String)
  | typeError
deriving DecidableEq

/-- Terminal state of the promise chain of a run. -/
inductive RunOutcome where
  | ok
  | loadErr (e : LoadError)
  | putErr
  | delErr
deriving DecidableEq

/-- Observable result of a run: dispatched store operations, final
`workflow.stats`, final `workflow.config`, derived prefix, and outcome. -/
structure RunResult where
  pfx : Option String
  config : List (String × JVal)
  events : List Event
  stats : Stats
  outcome : RunOutcome

/-- JSON-pointer token escaping used by `json-ptr`: `~` becomes `~0` and
`/` becomes `~1`. -/
def escapeToken (s : String) : String :=
  String.mk (s.data.foldr (fun c acc =>
    match c with
    | '~' => '~' :: '0' :: acc
    | '/' => '~' :: '1' :: acc
    | c => c :: acc) [])

mutual
/-- Model of `jptr.list`: pre-order flattening of a JSON tree into
(pointer, value) pairs, containers before their children, starting from
pointer `p` (the whole document uses `p = ""`). -/
def jptrFrom (p : String) : JVal → List (String × JVal)
  | .obj fields => (p, .obj fields) :: jptrFields p fields
  | .arr elems => (p, .arr elems) :: jptrElems p 0 elems
  | v => [(p, v)]

/-- Flattening of an object's fields, in document order. -/
def jptrFields (p : String) : List (String × JVal) → List (String × JVal)
  | [] => []
  | (k, v) :: rest => jptrFrom (p ++ "/" ++ escapeToken k) v ++ jptrFields p rest

/-- Flattening of an array's elements, with numeric index tokens. -/
def jptrElems (p : String) (i : Nat) : List JVal → List (String × JVal)
  | [] => []
  | v :: rest => jptrFrom (p ++ "/" ++ toString i) v ++ jptrElems p (i + 1) rest
end

/-- Model of lodash `_.keys` on a parsed JSON value: own enumerable keys
(field names of an object, index strings of an array or string, nothing
for other primitives). -/
def jsKeys : JVal → List String
  | .obj fields => fields.map (fun f => f.1)
  | .arr elems => (List.range elems.length).map (fun i => toString i)
  | .str s => (List.range s.length).map (fun i => toString i)
  | _ => []

/-- Model of JavaScript `String.prototype.substring(1)`: drop the first
character. -/
def drop1 (s : String) : String := String.mk (s.data.drop 1)

/-- Filter of `reduce` in workflow.js: keep a flattened item exactly when
its value satisfies `_.isString(x.value) || _.isFinite(x.value)`. -/
def isRetained : JVal → Bool
  | .str _ => true
  | .num (.fin _) => true
  | _ => false

/-- Model of the JavaScript property assignment `acc[k] = v` on the
accumulator object: overwrite in place when the key is present, append
otherwise (string-keyed insertion order is preserved). -/
def insertJS (m : List (String × JVal)) (k : String) (v : JVal) :
    List (String × JVal) :=
  if m.any (fun p => p.1 = k) then
    m.map (fun p => if p.1 = k then (k, v) else p)
  else m ++ [(k, v)]

/-- Property lookup on the modelled object. -/
def lookupJS (m : List (String × JVal)) (k : String) : Option JVal :=
  (m.find? (fun p => p.1 = k)).map (fun p => p.2)

/-- Mirror of `reduce` in workflow.js: filter the flattened pointer list to
string/finite-number values, then fold them into an object keyed by
`item.pointer.substring(1)` holding the raw `item.value`. -/
def reduce (flattened : List (String × JVal)) : List (String × JVal) :=
  (flattened.filter (fun x => isRetained x.2)).foldl
    (fun acc item => insertJS acc (drop1 item.1) item.2) []

/-- Message of the schema validation error thrown by `readPointers`. -/
def schemaMsg : String :=
  "Each configuration file must have at least a single top-level node identifying the service."

/-- Message of the consistency error thrown by `readPointers` for an
offending file name, the recorded prefix and the differing prefix
(note the stray apostrophe after the file name, as in the source). -/
def consistencyMsg (fileName p0 p1 : String) : String :=
  "Each file must have the same top-level node. Expected \"" ++ fileName ++
    "'\" to have top-level node \"" ++ p0 ++ "\", but it has \"" ++ p1 ++ "\"."

/-- Mirror of `readPointers` in workflow.js for one already-parsed file.
`pfx0` is the current `workflow.prefix` (`none` when still unset).  Fails
when the document has zero lodash-keys; derives the file's prefix from
`pointers[1].pointer.substring(1)`; when `workflow.prefix` is already
truthy (set and non-empty) and differs, fails; otherwise records it.
Returns the updated prefix state and the file's pointer list. -/
def readPointers (fileName : String) (contents : JVal) (pfx0 : Option String) :
    Except LoadError (Option String × List (String × JVal)) :=
  let keys := jsKeys contents
  if keys.length = 0 then
    .error (.schemaError schemaMsg)
  else
    let pointers := jptrFrom "" contents
    match pointers with
    | _ :: second :: _ =>
      let pfx := drop1 second.1
      match pfx0 with
      | some p0 =>
        if p0 ≠ "" then
          if pfx ≠ p0 then
            .error (.consistencyError (consistencyMsg fileName p0 pfx))
          else .ok (some p0, pointers)
        else .ok (some pfx, pointers)
      | none => .ok (some pfx, pointers)
    | _ => .error .typeError

/-- Sequential model of `Promise.map(files, readPointers).then(_.flatten)`:
process the files in input order, threading `workflow.prefix`, and
concatenate the per-file pointer lists (Promise.map keeps results in input
order). -/
def loadFiles : List (String × JVal) → Option String →
    Except LoadError (Option String × List (String × JVal))
  | [], st => .ok (st, [])
  | (n, c) :: rest, st =>
    match readPointers n c st with
    | .error e => .error e
    | .ok (st1, pts) =>
      match loadFiles rest st1 with
      | .error e => .error e
      | .ok (st2, more) => .ok (st2, pts ++ more)

/-- Model of the JavaScript string coercion `'' + value` as applied to the
values stored in `workflow.config` (which are always strings or finite
numbers, rendered in decimal). -/
def renderVal : JVal → String
  | .str s => s
  | .num (.fin v) => toString v
  | .num .nonfinite => "NaN"
  | .boolean b => if b then "true" else "false"
  | .null => "null"
  | .obj _ => "[object Object]"
  | .arr _ => ""

/-- Mirror of the put phase of `put` in workflow.js: for each entry of
`config` in order, increment `stats.put`, remove the entry's key from the
existing-key list, and dispatch `setAsync` with the coerced value.
Returns the dispatched events, the filtered existing-key list and the
updated stats. -/
def put : List (String × JVal) → List String → Stats →
    List Event × List String × Stats
  | [], existing, stats => ([], existing, stats)
  | item :: rest, existing, stats =>
    let r := put rest (existing.filter (fun x => x ≠ item.1))
      { stats with put := stats.put + 1 }
    (Event.setKey item.1 (renderVal item.2) :: r.1, r.2.1, r.2.2)

/-- Mirror of `del` in workflow.js: dispatch one `delAsync` per remaining
existing key, incrementing `stats.deleted` per dispatch. -/
def del : List String → Stats → List Event × Stats
  | [], stats => ([], stats)
  | k :: rest, stats =>
    let r := del rest { stats with deleted := stats.deleted + 1 }
    (Event.deleteKey k :: r.1, r.2)

/-- Mirror of `add` in workflow.js: for each entry of `config`, look the
key up in the existing-key list with `_.find`; skip the entry when the
found item is truthy with at least one own key (a non-empty string),
otherwise increment `stats.put` and dispatch `setAsync`. -/
def add (existing : List String) : List (String × JVal) → Stats →
    List Event × Stats
  | [], stats => ([], stats)
  | item :: rest, stats =>
    match existing.find? (fun x => x = item.1) with
    | some found =>
      if found = "" then
        let r := add existing rest { stats with put := stats.put + 1 }
        (Event.setKey item.1 (renderVal item.2) :: r.1, r.2)
      else add existing rest stats
    | none =>
      let r := add existing rest { stats with put := stats.put + 1 }
      (Event.setKey item.1 (renderVal item.2) :: r.1, r.2)

/-- Model of `workflow.exec`: load and flatten the files, reduce them to
`workflow.config`, fetch the existing keys with `keysAsync('')` (the
observed list is the store's answer for that empty path), run the put
phase, and — only when every dispatched put succeeded — run the delete
phase on the keys left in the filtered existing list. -/
def execRun (files : List (String × JVal)) (observed : List String)
    (setOk : String → Bool) (delOk : String → Bool) : RunResult :=
  match loadFiles files none with
  | .error e =>
    { pfx := none, config := [], events := [], stats := ⟨0, 0⟩,
      outcome := .loadErr e }
  | .ok (pfx, flattened) =>
    let config := reduce flattened
    let pr := put config observed ⟨0, 0⟩
    if config.all (fun item => setOk item.1) then
      let dr := del pr.2.1 pr.2.2
      { pfx := pfx, config := config,
        events := Event.listKeys "" :: pr.1 ++ dr.1, stats := dr.2,
        outcome := if pr.2.1.all delOk then .ok else .delErr }
    else
      { pfx := pfx, config := config,
        events := Event.listKeys "" :: pr.1, stats := pr.2.2,
        outcome := .putErr }

/-- Model of `workflow.update`: like `workflow.exec` but without the
delete phase (the existing keys are still fetched). -/
def updateRun (files : List (String × JVal)) (observed : List String)
    (setOk : String → Bool) : RunResult :=
  match loadFiles files none with
  | .error e =>
    { pfx := none, config := [], events := [], stats := ⟨0, 0⟩,
      outcome := .loadErr e }
  | .ok (pfx, flattened) =>
    let config := reduce flattened
    let pr := put config observed ⟨0, 0⟩
    { pfx := pfx, config := config, events := Event.listKeys "" :: pr.1,
      stats := pr.2.2,
      outcome := if config.all (fun item => setOk item.1) then .ok else .putErr }

/-- Model of `workflow.add`: like `workflow.update` but dispatching only
the entries whose key is not already present. -/
def addRun (files : List (String × JVal)) (observed : List String)
    (setOk : String → Bool) : RunResult :=
  match loadFiles files none with
  | .error e =>
    { pfx := none, config := [], events := [], stats := ⟨0, 0⟩,
      outcome := .loadErr e }
  | .ok (pfx, flattened) =>
    let config := reduce flattened
    let ar := add observed config ⟨0, 0⟩
    { pfx := pfx, config := config, events := Event.listKeys "" :: ar.1,
      stats := ar.2,
      outcome := if ar.1.all (fun e =>
          match e with
          | .setKey k _ => setOk k
          | _ => true) then .ok else .putErr }

/-- Event classifiers. -/
def isSetEvent : Event → Bool
  | .setKey _ _ => true
  | _ => false

def isDelEvent : Event → Bool
  | .deleteKey _ => true
  | _ => false

def isListEvent : Event → Bool
  | .listKeys _ => true
  | _ => false

/-- Substring test on strings (used to talk about what an error message
names). -/
def containsStr (hay nee : String) : Bool :=
  (List.range (hay.length + 1)).any (fun i => nee.data.isPrefixOf (hay.data.drop i))

/-- Example manifest of the spec scenarios:
`\x7b"svc": \x7b"a": "1", "b": 2, "nested": \x7b"c": "x"\x7d\x7d\x7d`. -/
def svcManifest : JVal :=
  .obj [("svc", .obj
    [("a", .str "1"), ("b", .num (.fin 2)), ("nested", .obj [("c", .str "x")])])]

/-- Smaller manifest whose desired state is the two-key scenario state
`\x7b"svc/a": "1", "svc/b": "2"\x7d`. -/
def svcPair : JVal :=
  .obj [("svc", .obj [("a", .str "1"), ("b", .num (.fin 2))])]


/-- Last assignment semantics of the reduction fold: the value of the last
item of `l` whose stripped pointer equals `k`. -/
def lastVal : List (String × JVal) → String → Option JVal
  | [], _ => none
  | item :: rest, k =>
    match lastVal rest k with
    | some v => some v
    | none => if drop1 item.1 = k then some item.2 else none

/-- Boolean test that `hay` starts with `pre` (used to talk about a key
lying under a key-space root). -/
def startsWithStr (hay pre : String) : Bool := pre.data.isPrefixOf hay.data

/-- Test for a string-typed JSON value. -/
def isStringVal : JVal → Bool
  | .str _ => true
  | _ => false

/-- Manifest with two top-level properties. -/
def twoProp : JVal := .obj [("a", .str "1"), ("b", .str "2")]

/-- Two manifests assigning different values to the same key svc/a. -/
def oldSvcFile : JVal := .obj [("svc", .obj [("a", .str "old")])]

def newSvcFile : JVal := .obj [("svc", .obj [("a", .str "new")])]


/-! Lemmas about the embedded operations. -/

theorem lookup_nil (k : String) : lookupJS [] k = none := rfl

theorem lookup_cons (p : String × JVal) (m : List (String × JVal)) (k : String) :
    lookupJS (p :: m) k = if p.1 = k then some p.2 else lookupJS m k := by
  by_cases hp : p.1 = k <;> simp [lookupJS, List.find?, hp]

theorem lookup_map_ne (m : List (String × JVal)) (k0 k : String) (v0 : JVal)
    (hk : k ≠ k0) :
    lookupJS (m.map (fun p => if p.1 = k0 then (k0, v0) else p)) k = lookupJS m k := by
  induction m with
  | nil => rfl
  | cons p rest ih =>
      rw [List.map_cons, lookup_cons, lookup_cons, ih]
      by_cases hp : p.1 = k0
      · rw [if_pos hp]
        simp [hp, Ne.symm hk]
      · rw [if_neg hp]

theorem lookup_map_hit (m : List (String × JVal)) (k0 : String) (v0 : JVal)
    (h : m.any (fun p => p.1 = k0) = true) :
    lookupJS (m.map (fun p => if p.1 = k0 then (k0, v0) else p)) k0 = some v0 := by
  induction m with
  | nil => simp at h
  | cons p rest ih =>
      rw [List.map_cons, lookup_cons]
      by_cases hp : p.1 = k0
      · rw [if_pos hp]; simp
      · rw [if_neg hp]
        have h' : rest.any (fun p => p.1 = k0) = true := by
          simp only [List.any_cons] at h
          rcases Bool.or_eq_true_iff.mp h with h1 | h1
          · exact absurd (of_decide_eq_true h1) hp
          · exact h1
        simp only [hp, if_false]
        exact ih h'

theorem lookup_any_false (m : List (String × JVal)) (k : String)
    (h : m.any (fun p => p.1 = k) = false) : lookupJS m k = none := by
  induction m with
  | nil => rfl
  | cons p rest ih =>
      simp only [List.any_cons, Bool.or_eq_false_iff] at h
      have hp : ¬ p.1 = k := by simpa using h.1
      rw [lookup_cons, if_neg hp]
      exact ih h.2

theorem lookup_append_single (m : List (String × JVal)) (k0 k : String) (v0 : JVal) :
    lookupJS (m ++ [(k0, v0)]) k =
      match lookupJS m k with
      | some v => some v
      | none => if k = k0 then some v0 else none := by
  induction m with
  | nil =>
      rw [List.nil_append, lookup_cons, lookup_nil]
      by_cases hk : k = k0
      · simp [hk]
      · simp [hk, Ne.symm hk]
  | cons p rest ih =>
      rw [List.cons_append, lookup_cons, lookup_cons, ih]
      by_cases hp : p.1 = k
      · rw [if_pos hp, if_pos hp]
      · rw [if_neg hp, if_neg hp]

theorem lookup_insert (m : List (String × JVal)) (k0 k : String) (v0 : JVal) :
    lookupJS (insertJS m k0 v0) k = if k = k0 then some v0 else lookupJS m k := by
  unfold insertJS
  by_cases ha : m.any (fun p => p.1 = k0) = true
  · simp only [ha, if_true]
    by_cases hk : k = k0
    · rw [hk, lookup_map_hit m k0 v0 ha, if_pos rfl]
    · rw [lookup_map_ne m k0 k v0 hk, if_neg hk]
  · have ha' : m.any (fun p => p.1 = k0) = false := Bool.eq_false_iff.mpr ha
    simp only [ha', Bool.false_eq_true, if_false]
    rw [lookup_append_single]
    by_cases hk : k = k0
    · rw [hk, lookup_any_false m k0 ha', if_pos rfl]
    · cases h : lookupJS m k <;> simp [hk]

theorem foldl_lookup (l acc : List (String × JVal)) (k : String) :
    lookupJS (l.foldl (fun acc item => insertJS acc (drop1 item.1) item.2) acc) k =
      match lastVal l k with
      | some v => some v
      | none => lookupJS acc k := by
  induction l generalizing acc with
  | nil => rfl
  | cons item rest ih =>
      rw [List.foldl_cons, ih]
      cases hv : lastVal rest k with
      | some v => simp [lastVal, hv]
      | none =>
          simp only [lastVal, hv]
          rw [lookup_insert]
          by_cases hk : k = drop1 item.1
          · simp [hk]
          · simp [hk, Ne.symm hk]

theorem reduce_lookup (l : List (String × JVal)) (k : String) :
    lookupJS (reduce l) k = lastVal (l.filter (fun x => isRetained x.2)) k := by
  unfold reduce
  rw [foldl_lookup]
  cases h : lastVal (l.filter (fun x => isRetained x.2)) k <;> simp [lookup_nil]

theorem lastVal_isSome (l : List (String × JVal)) (k : String) :
    (lastVal l k).isSome = true ↔ ∃ item ∈ l, drop1 item.1 = k := by
  induction l with
  | nil => simp [lastVal]
  | cons item rest ih =>
      cases hv : lastVal rest k with
      | some v =>
          simp only [lastVal, hv, Option.isSome_some, true_iff]
          have := ih.mp (by rw [hv]; rfl)
          obtain ⟨x, hx, hk⟩ := this
          exact ⟨x, List.mem_cons_of_mem _ hx, hk⟩
      | none =>
          simp only [lastVal, hv]
          by_cases hk : drop1 item.1 = k
          · rw [if_pos hk]
            simp only [Option.isSome_some, true_iff]
            exact ⟨item, List.mem_cons_self _ _, hk⟩
          · simp only [if_neg hk, Option.isSome_none, Bool.false_eq_true, false_iff]
            intro ⟨x, hx, hxk⟩
            rcases List.mem_cons.mp hx with rfl | hx'
            · exact hk hxk
            · have : (lastVal rest k).isSome = true := ih.mpr ⟨x, hx', hxk⟩
              rw [hv] at this
              simp at this

theorem mem_lookup_isSome (m : List (String × JVal)) (k : String) :
    (lookupJS m k).isSome = true ↔ ∃ v, (k, v) ∈ m := by
  induction m with
  | nil => simp [lookup_nil]
  | cons p rest ih =>
      rw [lookup_cons]
      by_cases hp : p.1 = k
      · simp only [if_pos hp, Option.isSome_some, true_iff]
        refine ⟨p.2, ?_⟩
        have : (k, p.2) = p := by
          cases p with
          | mk a b => simp at hp ⊢; exact hp.symm
        rw [this]
        exact List.mem_cons_self _ _
      · simp only [if_neg hp, ih]
        constructor
        · intro ⟨v, hv⟩
          exact ⟨v, List.mem_cons_of_mem _ hv⟩
        · intro ⟨v, hv⟩
          rcases List.mem_cons.mp hv with he | hv'
          · exact absurd (congrArg Prod.fst he).symm hp
          · exact ⟨v, hv'⟩

theorem keys_insertJS (m : List (String × JVal)) (k : String) (v : JVal) :
    (insertJS m k v).map (fun p => p.1) =
      if m.any (fun p => p.1 = k) then m.map (fun p => p.1)
      else m.map (fun p => p.1) ++ [k] := by
  unfold insertJS
  by_cases ha : m.any (fun p => p.1 = k) = true
  · simp only [ha, if_true, List.map_map]
    apply List.map_congr_left
    intro p _
    by_cases hp : p.1 = k
    · simp [hp]
    · simp [hp]
  · have ha' : m.any (fun p => p.1 = k) = false := Bool.eq_false_iff.mpr ha
    simp [ha']

theorem nodup_keys_insertJS (m : List (String × JVal)) (k : String) (v : JVal)
    (h : (m.map (fun p => p.1)).Nodup) :
    ((insertJS m k v).map (fun p => p.1)).Nodup := by
  rw [keys_insertJS]
  by_cases ha : m.any (fun p => p.1 = k) = true
  · simp only [ha, if_true]; exact h
  · have ha' : m.any (fun p => p.1 = k) = false := Bool.eq_false_iff.mpr ha
    simp only [ha', Bool.false_eq_true, if_false]
    have hk : k ∉ m.map (fun p => p.1) := by
      intro hm
      obtain ⟨p, hp, he⟩ := List.mem_map.mp hm
      have : m.any (fun p => p.1 = k) = true :=
        List.any_eq_true.mpr ⟨p, hp, by simp [he]⟩
      rw [ha'] at this
      simp at this
    rw [← List.concat_eq_append]
    exact List.Nodup.concat hk h

theorem foldl_keys_nodup (l acc : List (String × JVal))
    (h : (acc.map (fun p => p.1)).Nodup) :
    ((l.foldl (fun acc item => insertJS acc (drop1 item.1) item.2) acc).map
      (fun p => p.1)).Nodup := by
  induction l generalizing acc with
  | nil => exact h
  | cons item rest ih =>
      rw [List.foldl_cons]
      exact ih _ (nodup_keys_insertJS _ _ _ h)

theorem reduce_keys_nodup (l : List (String × JVal)) :
    ((reduce l).map (fun p => p.1)).Nodup := by
  unfold reduce
  exact foldl_keys_nodup _ [] (by simp)

theorem put_events (config : List (String × JVal)) (existing : List String)
    (stats : Stats) :
    (put config existing stats).1 =
      config.map (fun i => Event.setKey i.1 (renderVal i.2)) := by
  induction config generalizing existing stats with
  | nil => rfl
  | cons item rest ih => simp [put, ih]

theorem put_existing (config : List (String × JVal)) (existing : List String)
    (stats : Stats) :
    (put config existing stats).2.1 =
      existing.filter (fun k => !(config.any (fun i => i.1 = k))) := by
  induction config generalizing existing stats with
  | nil => simp [put]
  | cons item rest ih =>
      simp only [put, ih, List.filter_filter]
      apply List.filter_congr
      intro x _
      by_cases hx : x = item.1
      · simp [hx, List.any_cons]
      · simp [hx, List.any_cons]
        exact fun _ he => hx he.symm

theorem put_stats (config : List (String × JVal)) (existing : List String)
    (stats : Stats) :
    (put config existing stats).2.2 = ⟨stats.put + config.length, stats.deleted⟩ := by
  induction config generalizing existing stats with
  | nil => simp [put]
  | cons item rest ih =>
      simp only [put, ih, List.length_cons]
      congr 1
      omega

theorem del_events (existing : List String) (stats : Stats) :
    (del existing stats).1 = existing.map Event.deleteKey := by
  induction existing generalizing stats with
  | nil => rfl
  | cons k rest ih => simp [del, ih]

theorem del_stats (existing : List String) (stats : Stats) :
    (del existing stats).2 = ⟨stats.put, stats.deleted + existing.length⟩ := by
  induction existing generalizing stats with
  | nil => simp [del]
  | cons k rest ih =>
      simp only [del, ih, List.length_cons]
      congr 1
      omega

theorem add_events (existing : List String) (config : List (String × JVal)) (stats : Stats)
    (h : "" ∉ existing) :
    (add existing config stats).1 =
      (config.filter (fun i => decide (i.1 ∉ existing))).map
        (fun i => Event.setKey i.1 (renderVal i.2)) := by
  induction config generalizing stats with
  | nil => rfl
  | cons item rest ih =>
      cases hf : existing.find? (fun x => x = item.1) with
      | none =>
          have hmem : item.1 ∉ existing := by
            intro hm
            have := List.find?_eq_none.mp hf item.1 hm
            simp at this
          simp only [add, hf, List.filter_cons]
          simp [hmem, ih]
      | some found =>
          have hp0 := List.find?_some hf
          have hpf : found = item.1 := by simpa using hp0
          have hmem : found ∈ existing := List.mem_of_find?_eq_some hf
          have hne : found ≠ "" := fun he => h (he ▸ hmem)
          have hmem' : item.1 ∈ existing := hpf ▸ hmem
          simp only [add, hf, if_neg hne, List.filter_cons]
          simp [hmem', ih]

theorem add_stats (existing : List String) (config : List (String × JVal)) (stats : Stats)
    (h : "" ∉ existing) :
    (add existing config stats).2 =
      ⟨stats.put + (config.filter (fun i => decide (i.1 ∉ existing))).length,
        stats.deleted⟩ := by
  induction config generalizing stats with
  | nil => simp [add]
  | cons item rest ih =>
      cases hf : existing.find? (fun x => x = item.1) with
      | none =>
          have hmem : item.1 ∉ existing := by
            intro hm
            have := List.find?_eq_none.mp hf item.1 hm
            simp at this
          simp only [add, hf, List.filter_cons]
          simp [hmem, ih, Stats.mk.injEq]
          omega
      | some found =>
          have hp0 := List.find?_some hf
          have hpf : found = item.1 := by simpa using hp0
          have hmem : found ∈ existing := List.mem_of_find?_eq_some hf
          have hne : found ≠ "" := fun he => h (he ▸ hmem)
          have hmem' : item.1 ∈ existing := hpf ▸ hmem
          simp only [add, hf, if_neg hne, List.filter_cons]
          simp [hmem', ih]

-- run-level unfolding pattern test
example (files : List (String × JVal)) (observed : List String)
    (setOk delOk : String → Bool) (pfxv : Option String)
    (fl : List (String × JVal))
    (hload : loadFiles files none = .ok (pfxv, fl)) :
    (execRun files observed setOk delOk).config = reduce fl := by
  simp only [execRun, hload]
  by_cases hall : (reduce fl).all (fun item => setOk item.1) = true
  · simp [hall]
  · have := Bool.eq_false_iff.mpr hall
    simp [this]

theorem lastVal_append (a b : List (String × JVal)) (k : String) :
    lastVal (a ++ b) k =
      match lastVal b k with
      | some v => some v
      | none => lastVal a k := by
  induction a with
  | nil => cases h : lastVal b k <;> simp [lastVal, h]
  | cons item rest ih =>
      have hstep : lastVal ((item :: rest) ++ b) k =
          match lastVal (rest ++ b) k with
          | some v => some v
          | none => if drop1 item.1 = k then some item.2 else none := rfl
      rw [hstep, ih]
      cases h : lastVal b k with
      | some v => rfl
      | none => rfl

theorem execRun_config (files : List (String × JVal)) (observed : List String)
    (setOk delOk : String → Bool) (pfxv : Option String) (fl : List (String × JVal))
    (hload : loadFiles files none = .ok (pfxv, fl)) :
    (execRun files observed setOk delOk).config = reduce fl := by
  simp only [execRun, hload]
  by_cases hall : (reduce fl).all (fun item => setOk item.1) = true
  · simp [hall]
  · simp [Bool.eq_false_iff.mpr hall]

theorem execRun_events_ok (files : List (String × JVal)) (observed : List String)
    (setOk delOk : String → Bool) (pfxv : Option String) (fl : List (String × JVal))
    (hload : loadFiles files none = .ok (pfxv, fl))
    (hall : (reduce fl).all (fun item => setOk item.1) = true) :
    (execRun files observed setOk delOk).events =
      Event.listKeys "" ::
        ((reduce fl).map (fun i => Event.setKey i.1 (renderVal i.2)) ++
          (observed.filter (fun k => !((reduce fl).any (fun i => i.1 = k)))).map
            Event.deleteKey) := by
  simp only [execRun, hload, hall, if_true, put_events, put_existing, del_events]
  simp

theorem execRun_events_fail (files : List (String × JVal)) (observed : List String)
    (setOk delOk : String → Bool) (pfxv : Option String) (fl : List (String × JVal))
    (hload : loadFiles files none = .ok (pfxv, fl))
    (hall : (reduce fl).all (fun item => setOk item.1) = false) :
    (execRun files observed setOk delOk).events =
      Event.listKeys "" ::
        (reduce fl).map (fun i => Event.setKey i.1 (renderVal i.2)) := by
  simp only [execRun, hload, hall, Bool.false_eq_true, if_false, put_events]

theorem execRun_stats_fail (files : List (String × JVal)) (observed : List String)
    (setOk delOk : String → Bool) (pfxv : Option String) (fl : List (String × JVal))
    (hload : loadFiles files none = .ok (pfxv, fl))
    (hall : (reduce fl).all (fun item => setOk item.1) = false) :
    (execRun files observed setOk delOk).stats = ⟨(reduce fl).length, 0⟩ := by
  simp only [execRun, hload, hall, Bool.false_eq_true, if_false, put_stats]
  simp

theorem updateRun_config (files : List (String × JVal)) (observed : List String)
    (setOk : String → Bool) (pfxv : Option String) (fl : List (String × JVal))
    (hload : loadFiles files none = .ok (pfxv, fl)) :
    (updateRun files observed setOk).config = reduce fl := by
  simp only [updateRun, hload]

theorem updateRun_events (files : List (String × JVal)) (observed : List String)
    (setOk : String → Bool) (pfxv : Option String) (fl : List (String × JVal))
    (hload : loadFiles files none = .ok (pfxv, fl)) :
    (updateRun files observed setOk).events =
      Event.listKeys "" ::
        (reduce fl).map (fun i => Event.setKey i.1 (renderVal i.2)) := by
  simp only [updateRun, hload, put_events]

theorem updateRun_stats (files : List (String × JVal)) (observed : List String)
    (setOk : String → Bool) (pfxv : Option String) (fl : List (String × JVal))
    (hload : loadFiles files none = .ok (pfxv, fl)) :
    (updateRun files observed setOk).stats = ⟨(reduce fl).length, 0⟩ := by
  simp only [updateRun, hload, put_stats]
  simp

theorem addRun_config (files : List (String × JVal)) (observed : List String)
    (setOk : String → Bool) (pfxv : Option String) (fl : List (String × JVal))
    (hload : loadFiles files none = .ok (pfxv, fl)) :
    (addRun files observed setOk).config = reduce fl := by
  simp only [addRun, hload]

theorem addRun_events (files : List (String × JVal)) (observed : List String)
    (setOk : String → Bool) (pfxv : Option String) (fl : List (String × JVal))
    (hload : loadFiles files none = .ok (pfxv, fl)) (hne : "" ∉ observed) :
    (addRun files observed setOk).events =
      Event.listKeys "" ::
        ((reduce fl).filter (fun i => decide (i.1 ∉ observed))).map
          (fun i => Event.setKey i.1 (renderVal i.2)) := by
  simp only [addRun, hload, add_events _ _ _ hne]

theorem addRun_stats (files : List (String × JVal)) (observed : List String)
    (setOk : String → Bool) (pfxv : Option String) (fl : List (String × JVal))
    (hload : loadFiles files none = .ok (pfxv, fl)) (hne : "" ∉ observed) :
    (addRun files observed setOk).stats =
      ⟨((reduce fl).filter (fun i => decide (i.1 ∉ observed))).length, 0⟩ := by
  simp only [addRun, hload, add_stats _ _ _ hne]
  simp

theorem not_list_on_sets (c : List (String × JVal)) :
    ((c.map (fun i => Event.setKey i.1 (renderVal i.2))).filter isListEvent) = [] := by
  induction c with
  | nil => rfl
  | cons i rest ih => simp [List.filter_cons, isListEvent, ih]

theorem not_list_on_dels (o : List String) :
    ((o.map Event.deleteKey).filter isListEvent) = [] := by
  induction o with
  | nil => rfl
  | cons k rest ih => simp [List.filter_cons, isListEvent, ih]

theorem not_del_on_sets (c : List (String × JVal)) :
    ((c.map (fun i => Event.setKey i.1 (renderVal i.2))).all
      (fun e => !isDelEvent e)) = true := by
  induction c with
  | nil => rfl
  | cons i rest ih =>
      rw [List.map_cons, List.all_cons, ih]
      simp [isDelEvent]

theorem not_set_on_dels (o : List String) :
    ((o.map Event.deleteKey).all (fun e => !isSetEvent e)) = true := by
  induction o with
  | nil => rfl
  | cons k rest ih =>
      rw [List.map_cons, List.all_cons, ih]
      simp [isSetEvent]

theorem jptrFrom_head (p : String) (v : JVal) :
    ∃ t, jptrFrom p v = (p, v) :: t := by
  cases v <;> exact ⟨_, rfl⟩

theorem drop1_slash (s : String) : drop1 ("/" ++ s) = s := by
  simp [drop1, String.data_append]

theorem readPointers_single (fname p0 : String) (v : JVal) :
    readPointers fname (.obj [(p0, v)]) none =
      .ok (some (escapeToken p0), jptrFrom "" (.obj [(p0, v)])) := by
  obtain ⟨t, ht⟩ := jptrFrom_head (("" ++ "/") ++ escapeToken p0) v
  have hpts : jptrFrom "" (.obj [(p0, v)]) =
      ("", JVal.obj [(p0, v)]) :: ((("" ++ "/") ++ escapeToken p0, v) :: (t ++ [])) := by
    show ("", JVal.obj [(p0, v)]) ::
        (jptrFrom (("" ++ "/") ++ escapeToken p0) v ++ jptrFields "" []) = _
    rw [ht]
    rfl
  unfold readPointers
  simp only [hpts, jsKeys, List.map_cons, List.map_nil, List.length_cons,
    List.length_nil]
  simp [drop1_slash]

theorem readPointers_mismatch (fname pprev p0 : String) (v : JVal)
    (h1 : pprev ≠ "") (h2 : escapeToken p0 ≠ pprev) :
    readPointers fname (.obj [(p0, v)]) (some pprev) =
      .error (.consistencyError (consistencyMsg fname pprev (escapeToken p0))) := by
  obtain ⟨t, ht⟩ := jptrFrom_head (("" ++ "/") ++ escapeToken p0) v
  have hpts : jptrFrom "" (.obj [(p0, v)]) =
      ("", JVal.obj [(p0, v)]) :: ((("" ++ "/") ++ escapeToken p0, v) :: (t ++ [])) := by
    show ("", JVal.obj [(p0, v)]) ::
        (jptrFrom (("" ++ "/") ++ escapeToken p0) v ++ jptrFields "" []) = _
    rw [ht]
    rfl
  unfold readPointers
  simp only [hpts, jsKeys, List.map_cons, List.map_nil, List.length_cons,
    List.length_nil]
  simp [drop1_slash, h1, h2]


/-! Claim theorems. -/

/-- C1 counterexample: the claim says Observed Keys are fetched via listKeys
under the run's canonical prefix so that no key outside the prefix is ever
deleted.  In fact `getExistingKeys` calls `keysAsync('')`: with canonical
prefix "svc" and a store also containing "other/x", a full-sync run fetches
keys under the empty path and dispatches deleteKey for "other/x", which does
not lie under "svc". -/
theorem C1_outside_prefix_delete_cex :
    (execRun [("svc.json", svcPair)] ["other/x"]
        (fun _ => true) (fun _ => true)).pfx = some "svc" ∧
    (execRun [("svc.json", svcPair)] ["other/x"]
        (fun _ => true) (fun _ => true)).events =
      [Event.listKeys "", Event.setKey "svc/a" "1", Event.setKey "svc/b" "2",
        Event.deleteKey "other/x"] ∧
    startsWithStr "other/x" "svc" = false :=
  ⟨by decide, by decide, by decide⟩

/-- C1 (amended): in every full-sync run that loads successfully, the
existing keys are fetched exactly once, via a single listKeys call whose
path is the empty string (the whole store, not the run's prefix); every
dispatched deleteKey concerns a key that was in the observed list and is not
a key of the desired configuration.  Keys outside the run's prefix are not
protected. -/
theorem C1_observed_scope_amended (files : List (String × JVal))
    (observed : List String) (setOk delOk : String → Bool)
    (pfxv : Option String) (fl : List (String × JVal))
    (hload : loadFiles files none = .ok (pfxv, fl)) :
    (execRun files observed setOk delOk).events.filter isListEvent =
      [Event.listKeys ""] ∧
    ∀ k, Event.deleteKey k ∈ (execRun files observed setOk delOk).events →
      k ∈ observed ∧ ∀ v, (k, v) ∉ (execRun files observed setOk delOk).config := by
  by_cases hall : (reduce fl).all (fun item => setOk item.1) = true
  · rw [execRun_events_ok files observed setOk delOk pfxv fl hload hall,
      execRun_config files observed setOk delOk pfxv fl hload]
    constructor
    · rw [List.filter_cons]
      simp [isListEvent, List.filter_append, not_list_on_sets, not_list_on_dels]
    · intro k hk
      rcases List.mem_cons.mp hk with he | hm
      · exact Event.noConfusion he
      · rcases List.mem_append.mp hm with hp | hd
        · obtain ⟨i, _, hi⟩ := List.mem_map.mp hp
          exact Event.noConfusion hi
        · obtain ⟨x, hx, hxk⟩ := List.mem_map.mp hd
          have hxk' : x = k := Event.deleteKey.inj hxk
          subst hxk'
          have hx' := List.mem_filter.mp hx
          refine ⟨hx'.1, ?_⟩
          intro v hv
          have hany : (reduce fl).any (fun i => i.1 = x) = true :=
            List.any_eq_true.mpr ⟨(x, v), hv, by simp⟩
          have hcontra := hx'.2
          rw [hany] at hcontra
          simp at hcontra
  · have hall' : (reduce fl).all (fun item => setOk item.1) = false :=
      Bool.eq_false_iff.mpr hall
    rw [execRun_events_fail files observed setOk delOk pfxv fl hload hall',
      execRun_config files observed setOk delOk pfxv fl hload]
    constructor
    · rw [List.filter_cons]
      simp [isListEvent, not_list_on_sets]
    · intro k hk
      rcases List.mem_cons.mp hk with he | hm
      · exact Event.noConfusion he
      · obtain ⟨i, _, hi⟩ := List.mem_map.mp hm
        exact Event.noConfusion hi

/-- Witness for C1: the amended theorem instantiated at a concrete run whose
store contains only the out-of-prefix key "other/x". -/
theorem C1_observed_scope_witness :
    (execRun [("svc.json", svcPair)] ["other/x"]
        (fun _ => true) (fun _ => true)).events.filter isListEvent =
      [Event.listKeys ""] ∧
    ("other/x" ∈ (["other/x"] : List String) ∧
      ∀ v, ("other/x", v) ∉ (execRun [("svc.json", svcPair)] ["other/x"]
        (fun _ => true) (fun _ => true)).config) := by
  have h := C1_observed_scope_amended [("svc.json", svcPair)] ["other/x"]
    (fun _ => true) (fun _ => true) (some "svc") (jptrFrom "" svcPair ++ []) rfl
  exact ⟨h.1, h.2 "other/x" (by decide)⟩

/-- C2: with Observed Keys svc/a and svc/old and the manifest whose desired
state is svc/a ↦ "1", svc/b ↦ "2", a full-sync run dispatches setKey for
exactly svc/a and svc/b (in that order, after the single listKeys),
dispatches deleteKey for exactly svc/old, and finishes with statistics
put = 2 and deleted = 1. -/
theorem C2_full_sync_scenario :
    (execRun [("svc.json", svcPair)] ["svc/a", "svc/old"]
        (fun _ => true) (fun _ => true)).events =
      [Event.listKeys "", Event.setKey "svc/a" "1", Event.setKey "svc/b" "2",
        Event.deleteKey "svc/old"] ∧
    (execRun [("svc.json", svcPair)] ["svc/a", "svc/old"]
        (fun _ => true) (fun _ => true)).stats = ⟨2, 1⟩ :=
  ⟨by decide, by decide⟩

/-- C3: in a full-sync run the dispatched event sequence splits into a
put-side part with no deleteKey followed by a part with no setKey (no
deleteKey is dispatched before every put-phase setKey has been issued and
joined), and if any put-phase setKey fails, no deleteKey at all is
dispatched and the deleted counter stays 0. -/
theorem C3_delete_after_puts (files : List (String × JVal))
    (observed : List String) (setOk delOk : String → Bool) :
    (∃ n, ((execRun files observed setOk delOk).events.take n).all
        (fun e => !isDelEvent e) = true ∧
      ((execRun files observed setOk delOk).events.drop n).all
        (fun e => !isSetEvent e) = true) ∧
    ((execRun files observed setOk delOk).config.all (fun i => setOk i.1) = false →
      (execRun files observed setOk delOk).events.all
        (fun e => !isDelEvent e) = true ∧
      (execRun files observed setOk delOk).stats.deleted = 0) := by
  cases hload : loadFiles files none with
  | error e =>
      simp only [execRun, hload]
      refine ⟨⟨0, ?_, ?_⟩, fun _ => ⟨?_, ?_⟩⟩ <;> simp
  | ok res =>
      obtain ⟨pfxv, fl⟩ := res
      by_cases hall : (reduce fl).all (fun item => setOk item.1) = true
      · constructor
        · refine ⟨(Event.listKeys "" :: (reduce fl).map
            (fun i => Event.setKey i.1 (renderVal i.2))).length, ?_, ?_⟩
          · rw [execRun_events_ok files observed setOk delOk pfxv fl hload hall]
            have hsplit : Event.listKeys "" ::
                ((reduce fl).map (fun i => Event.setKey i.1 (renderVal i.2)) ++
                  (observed.filter (fun k =>
                    !((reduce fl).any (fun i => i.1 = k)))).map Event.deleteKey) =
                (Event.listKeys "" :: (reduce fl).map
                  (fun i => Event.setKey i.1 (renderVal i.2))) ++
                  (observed.filter (fun k =>
                    !((reduce fl).any (fun i => i.1 = k)))).map Event.deleteKey := by
              simp
            rw [hsplit, List.take_left, List.all_cons, not_del_on_sets]
            simp [isDelEvent]
          · rw [execRun_events_ok files observed setOk delOk pfxv fl hload hall]
            have hsplit : Event.listKeys "" ::
                ((reduce fl).map (fun i => Event.setKey i.1 (renderVal i.2)) ++
                  (observed.filter (fun k =>
                    !((reduce fl).any (fun i => i.1 = k)))).map Event.deleteKey) =
                (Event.listKeys "" :: (reduce fl).map
                  (fun i => Event.setKey i.1 (renderVal i.2))) ++
                  (observed.filter (fun k =>
                    !((reduce fl).any (fun i => i.1 = k)))).map Event.deleteKey := by
              simp
            rw [hsplit, List.drop_left, not_set_on_dels]
        · intro hfalse
          rw [execRun_config files observed setOk delOk pfxv fl hload] at hfalse
          rw [hall] at hfalse
          exact absurd hfalse (by simp)
      · have hall' : (reduce fl).all (fun item => setOk item.1) = false :=
          Bool.eq_false_iff.mpr hall
        constructor
        · refine ⟨(Event.listKeys "" :: (reduce fl).map
            (fun i => Event.setKey i.1 (renderVal i.2))).length, ?_, ?_⟩
          · rw [execRun_events_fail files observed setOk delOk pfxv fl hload hall',
              List.take_length, List.all_cons, not_del_on_sets]
            simp [isDelEvent]
          · rw [execRun_events_fail files observed setOk delOk pfxv fl hload hall',
              List.drop_length]
            rfl
        · intro _
          constructor
          · rw [execRun_events_fail files observed setOk delOk pfxv fl hload hall',
              List.all_cons, not_del_on_sets]
            simp [isDelEvent]
          · rw [execRun_stats_fail files observed setOk delOk pfxv fl hload hall']

/-- Witness for C3: a run in which every setKey fails dispatches no
deleteKey and ends with deleted = 0. -/
theorem C3_delete_after_puts_witness :
    (execRun [("svc.json", svcPair)] ["svc/a", "svc/old"] (fun _ => false)
        (fun _ => true)).events.all (fun e => !isDelEvent e) = true ∧
    (execRun [("svc.json", svcPair)] ["svc/a", "svc/old"] (fun _ => false)
        (fun _ => true)).stats.deleted = 0 :=
  (C3_delete_after_puts [("svc.json", svcPair)] ["svc/a", "svc/old"]
    (fun _ => false) (fun _ => true)).2 (by decide)

/-- C4: a flattened pair is retained in the Desired State mapping exactly
when its value is a string or a finite number, keyed by its pointer with
the leading separator removed; the spec's example manifest yields exactly
the keys svc/a, svc/b, svc/nested/c. -/
theorem C4_projector_filter :
    (∀ (l : List (String × JVal)) (k : String),
      (∃ v, (k, v) ∈ reduce l) ↔
        ∃ p v, (p, v) ∈ l ∧ isRetained v = true ∧ drop1 p = k) ∧
    (reduce (jptrFrom "" svcManifest)).map (fun e => e.1) =
      ["svc/a", "svc/b", "svc/nested/c"] := by
  constructor
  · intro l k
    refine Iff.trans (mem_lookup_isSome (reduce l) k).symm ?_
    rw [reduce_lookup, lastVal_isSome]
    constructor
    · rintro ⟨item, hmem, hk⟩
      have hf := List.mem_filter.mp hmem
      exact ⟨item.1, item.2, hf.1, hf.2, hk⟩
    · rintro ⟨p, v, hpv, hr, hk⟩
      exact ⟨(p, v), List.mem_filter.mpr ⟨hpv, hr⟩, hk⟩
  · decide

/-- Witness for C4: the characterisation instantiated at the example
manifest and the key svc/b. -/
theorem C4_projector_filter_witness :
    (∃ v, ("svc/b", v) ∈ reduce (jptrFrom "" svcManifest)) ↔
      ∃ p v, (p, v) ∈ jptrFrom "" svcManifest ∧ isRetained v = true ∧
        drop1 p = "svc/b" :=
  C4_projector_filter.1 (jptrFrom "" svcManifest) "svc/b"

/-- C5 counterexample: the claim says every value of the config mapping in
the run's result object is the text rendering of the leaf, so that the
numeric leaf 2 appears as the string "2".  In fact `reduce` stores the raw
value: in the scenario run the config maps svc/b to the number 2, which is
not a string value. -/
theorem C5_config_value_not_string_cex :
    lookupJS (execRun [("svc.json", svcPair)] ["svc/a", "svc/old"]
        (fun _ => true) (fun _ => true)).config "svc/b" =
      some (JVal.num (JSNum.fin 2)) ∧
    isStringVal (JVal.num (JSNum.fin 2)) = false :=
  ⟨rfl, rfl⟩

/-- C5 (amended): the config mapping of a run's result object is exactly
the raw reduction of the flattened manifests (numbers stay numbers); the
text rendering happens only at dispatch: for every config entry, the run
dispatches setKey with the coerced text of the raw value (decimal text for
finite numbers). -/
theorem C5_raw_config_values_amended (files : List (String × JVal))
    (observed : List String) (setOk delOk : String → Bool)
    (pfxv : Option String) (fl : List (String × JVal))
    (hload : loadFiles files none = .ok (pfxv, fl)) :
    (execRun files observed setOk delOk).config = reduce fl ∧
    ∀ k v, (k, v) ∈ (execRun files observed setOk delOk).config →
      Event.setKey k (renderVal v) ∈ (execRun files observed setOk delOk).events := by
  refine ⟨execRun_config files observed setOk delOk pfxv fl hload, ?_⟩
  intro k v hv
  rw [execRun_config files observed setOk delOk pfxv fl hload] at hv
  by_cases hall : (reduce fl).all (fun item => setOk item.1) = true
  · rw [execRun_events_ok files observed setOk delOk pfxv fl hload hall]
    exact List.mem_cons_of_mem _
      (List.mem_append.mpr (Or.inl (List.mem_map.mpr ⟨(k, v), hv, rfl⟩)))
  · rw [execRun_events_fail files observed setOk delOk pfxv fl hload
      (Bool.eq_false_iff.mpr hall)]
    exact List.mem_cons_of_mem _ (List.mem_map.mpr ⟨(k, v), hv, rfl⟩)

/-- Witness for C5: in the scenario run, the numeric leaf 2 of svc/b is
dispatched as the text "2". -/
theorem C5_raw_config_values_witness :
    Event.setKey "svc/b" "2" ∈ (execRun [("svc.json", svcPair)]
      ["svc/a", "svc/old"] (fun _ => true) (fun _ => true)).events := by
  have h := C5_raw_config_values_amended [("svc.json", svcPair)]
    ["svc/a", "svc/old"] (fun _ => true) (fun _ => true) (some "svc")
    (jptrFrom "" svcPair ++ []) rfl
  have hmem : ("svc/b", JVal.num (JSNum.fin 2)) ∈
      (execRun [("svc.json", svcPair)] ["svc/a", "svc/old"]
        (fun _ => true) (fun _ => true)).config :=
    List.Mem.tail _ (List.Mem.head _)
  exact h.2 "svc/b" (JVal.num (JSNum.fin 2)) hmem

/-- C6 counterexample: the claim says every manifest accepted by the loader
has exactly one top-level property.  In fact a manifest with two top-level
properties is accepted (only zero properties is rejected), its prefix being
the first property. -/
theorem C6_multi_top_level_accepted_cex :
    readPointers "multi.json" twoProp none =
      .ok (some "a", jptrFrom "" twoProp) ∧
    (jsKeys twoProp).length = 2 :=
  ⟨rfl, rfl⟩

/-- C6 (amended): a manifest with zero top-level properties fails loading
with the schema error, and every accepted manifest has at least one
top-level property (not exactly one). -/
theorem C6_schema_validation_amended (fileName : String) (contents : JVal)
    (st : Option String) :
    ((jsKeys contents).length = 0 →
      readPointers fileName contents st = .error (.schemaError schemaMsg)) ∧
    (∀ res, readPointers fileName contents st = .ok res →
      1 ≤ (jsKeys contents).length) := by
  constructor
  · intro h
    unfold readPointers
    simp [h]
  · intro res hok
    by_cases h : (jsKeys contents).length = 0
    · unfold readPointers at hok
      simp [h] at hok
    · omega

/-- Witness for C6: an empty-object manifest is rejected with the schema
error; a one-property manifest is accepted with one key. -/
theorem C6_schema_validation_witness :
    readPointers "empty.json" (.obj []) none = .error (.schemaError schemaMsg) ∧
    1 ≤ (jsKeys (JVal.obj [("svc", JVal.str "1")])).length :=
  ⟨(C6_schema_validation_amended "empty.json" (.obj []) none).1 rfl,
    (C6_schema_validation_amended "svc.json" (.obj [("svc", .str "1")]) none).2
      (some "svc", jptrFrom "" (.obj [("svc", .str "1")])) rfl⟩

/-- C7 counterexample: the claim says the consistency error message names
both files and both prefixes.  In fact it names the offending file and both
prefixes, but not the first file: the message produced for one.json and
two.json does not contain "one.json". -/
theorem C7_message_names_one_file_cex :
    loadFiles [("one.json", .obj [("svc", .str "1")]),
        ("two.json", .obj [("tvc", .str "1")])] none =
      .error (.consistencyError (consistencyMsg "two.json" "svc" "tvc")) ∧
    containsStr (consistencyMsg "two.json" "svc" "tvc") "one.json" = false ∧
    containsStr (consistencyMsg "two.json" "svc" "tvc") "two.json" = true ∧
    containsStr (consistencyMsg "two.json" "svc" "tvc") "svc" = true ∧
    containsStr (consistencyMsg "two.json" "svc" "tvc") "tvc" = true :=
  ⟨rfl, by decide, by decide, by decide, by decide⟩

/-- C7 (amended): when two manifests derive different top-level prefixes,
loading fails with a consistency error whose message is exactly the
template naming the offending (second) file, the expected prefix and the
actual prefix. -/
theorem C7_consistency_error_amended (n1 n2 p1 p2 : String) (v1 v2 : JVal)
    (h1 : escapeToken p1 ≠ "") (h2 : escapeToken p2 ≠ escapeToken p1) :
    loadFiles [(n1, .obj [(p1, v1)]), (n2, .obj [(p2, v2)])] none =
      .error (.consistencyError
        (consistencyMsg n2 (escapeToken p1) (escapeToken p2))) := by
  simp only [loadFiles, readPointers_single n1 p1 v1,
    readPointers_mismatch n2 (escapeToken p1) p2 v2 h1 h2]

/-- Witness for C7: the amended theorem at the concrete pair of files
one.json (prefix alpha) and two.json (prefix beta). -/
theorem C7_consistency_error_witness :
    loadFiles [("one.json", .obj [("alpha", .str "1")]),
        ("two.json", .obj [("beta", .str "1")])] none =
      .error (.consistencyError
        (consistencyMsg "two.json" (escapeToken "alpha") (escapeToken "beta"))) :=
  C7_consistency_error_amended "one.json" "two.json" "alpha" "beta"
    (JVal.str "1") (JVal.str "1") (by decide) (by decide)

/-- C8: in an add-only run (with the store containing no empty key), setKey
is dispatched for a desired entry exactly when its key is absent from the
observed keys: each absent entry is dispatched with its rendered value, no
setKey is ever dispatched for a present key, no deleteKey is ever
dispatched, the put counter equals the number of absent entries, and the
deleted counter stays 0. -/
theorem C8_add_only (files : List (String × JVal)) (observed : List String)
    (setOk : String → Bool) (pfxv : Option String) (fl : List (String × JVal))
    (hload : loadFiles files none = .ok (pfxv, fl)) (hne : "" ∉ observed) :
    (∀ k v, (k, v) ∈ (addRun files observed setOk).config → k ∉ observed →
      Event.setKey k (renderVal v) ∈ (addRun files observed setOk).events) ∧
    (∀ k, k ∈ observed → ∀ s, Event.setKey k s ∉
      (addRun files observed setOk).events) ∧
    (addRun files observed setOk).events.all (fun e => !isDelEvent e) = true ∧
    (addRun files observed setOk).stats.put =
      ((addRun files observed setOk).config.filter
        (fun i => decide (i.1 ∉ observed))).length ∧
    (addRun files observed setOk).stats.deleted = 0 := by
  rw [addRun_events files observed setOk pfxv fl hload hne,
    addRun_config files observed setOk pfxv fl hload,
    addRun_stats files observed setOk pfxv fl hload hne]
  refine ⟨?_, ?_, ?_, rfl, rfl⟩
  · intro k v hv hko
    exact List.mem_cons_of_mem _ (List.mem_map.mpr
      ⟨(k, v), List.mem_filter.mpr ⟨hv, by simpa using hko⟩, rfl⟩)
  · intro k hk s hmem
    rcases List.mem_cons.mp hmem with he | hm
    · exact Event.noConfusion he
    · obtain ⟨i, hi, hie⟩ := List.mem_map.mp hm
      have hik : i.1 = k := (Event.setKey.inj hie).1
      have hif := List.mem_filter.mp hi
      have : i.1 ∉ observed := by simpa using hif.2
      exact this (hik ▸ hk)
  · rw [List.all_cons, not_del_on_sets]
    simp [isDelEvent]

/-- Witness for C8: the spec scenario — observed svc/a and svc/old, desired
svc/a and svc/b — writes only svc/b, put = 1, deleted = 0. -/
theorem C8_add_only_witness :
    Event.setKey "svc/b" "2" ∈ (addRun [("svc.json", svcPair)]
      ["svc/a", "svc/old"] (fun _ => true)).events ∧
    (∀ s, Event.setKey "svc/a" s ∉ (addRun [("svc.json", svcPair)]
      ["svc/a", "svc/old"] (fun _ => true)).events) ∧
    (addRun [("svc.json", svcPair)] ["svc/a", "svc/old"]
      (fun _ => true)).stats.put = 1 ∧
    (addRun [("svc.json", svcPair)] ["svc/a", "svc/old"]
      (fun _ => true)).stats.deleted = 0 := by
  have h := C8_add_only [("svc.json", svcPair)] ["svc/a", "svc/old"]
    (fun _ => true) (some "svc") (jptrFrom "" svcPair ++ []) rfl (by decide)
  refine ⟨?_, ?_, ?_, h.2.2.2.2⟩
  · exact h.1 "svc/b" (JVal.num (JSNum.fin 2))
      (List.Mem.tail _ (List.Mem.head _)) (by decide)
  · exact fun s => h.2.1 "svc/a" (by decide) s
  · rw [h.2.2.2.1]
    decide

/-- C9: in an update-only run, setKey is dispatched for every Desired State
entry, no deleteKey is ever dispatched, the observed keys are still fetched
by exactly one listKeys call, the put counter equals the number of desired
entries and the deleted counter stays 0. -/
theorem C9_update_only (files : List (String × JVal)) (observed : List String)
    (setOk : String → Bool) (pfxv : Option String) (fl : List (String × JVal))
    (hload : loadFiles files none = .ok (pfxv, fl)) :
    (∀ k v, (k, v) ∈ (updateRun files observed setOk).config →
      Event.setKey k (renderVal v) ∈ (updateRun files observed setOk).events) ∧
    (updateRun files observed setOk).events.all (fun e => !isDelEvent e) = true ∧
    (updateRun files observed setOk).events.filter isListEvent =
      [Event.listKeys ""] ∧
    (updateRun files observed setOk).stats.put =
      (updateRun files observed setOk).config.length ∧
    (updateRun files observed setOk).stats.deleted = 0 := by
  rw [updateRun_events files observed setOk pfxv fl hload,
    updateRun_config files observed setOk pfxv fl hload,
    updateRun_stats files observed setOk pfxv fl hload]
  refine ⟨?_, ?_, ?_, rfl, rfl⟩
  · intro k v hv
    exact List.mem_cons_of_mem _ (List.mem_map.mpr ⟨(k, v), hv, rfl⟩)
  · rw [List.all_cons, not_del_on_sets]
    simp [isDelEvent]
  · rw [List.filter_cons]
    simp [isListEvent, not_list_on_sets]

/-- Witness for C9: the scenario run under update mode writes svc/a,
dispatches no delete and fetches the keys once. -/
theorem C9_update_only_witness :
    Event.setKey "svc/a" "1" ∈ (updateRun [("svc.json", svcPair)]
      ["svc/a", "svc/old"] (fun _ => true)).events ∧
    (updateRun [("svc.json", svcPair)] ["svc/a", "svc/old"]
      (fun _ => true)).events.all (fun e => !isDelEvent e) = true ∧
    (updateRun [("svc.json", svcPair)] ["svc/a", "svc/old"]
      (fun _ => true)).events.filter isListEvent = [Event.listKeys ""] ∧
    (updateRun [("svc.json", svcPair)] ["svc/a", "svc/old"]
      (fun _ => true)).stats.deleted = 0 := by
  have h := C9_update_only [("svc.json", svcPair)] ["svc/a", "svc/old"]
    (fun _ => true) (some "svc") (jptrFrom "" svcPair ++ []) rfl
  exact ⟨h.1 "svc/a" (JVal.str "1") (List.Mem.head _), h.2.1, h.2.2.1, h.2.2.2.2⟩

/-- C10: when the pair lists of two manifests (concatenated in
file-processing order) both yield a retained pair for the same key, the
reduced mapping holds the later list's value for that key and its keys are
without duplicates (a single entry per key); the reduction itself is total,
so no error is raised for the overlap. -/
theorem C10_last_write_wins (l1 l2 : List (String × JVal)) (k : String)
    (h : (lookupJS (reduce l2) k).isSome = true) :
    lookupJS (reduce (l1 ++ l2)) k = lookupJS (reduce l2) k ∧
    ((reduce (l1 ++ l2)).map (fun p => p.1)).Nodup := by
  refine ⟨?_, reduce_keys_nodup _⟩
  rw [reduce_lookup] at h ⊢
  rw [reduce_lookup, List.filter_append, lastVal_append]
  cases hv : lastVal (l2.filter (fun x => isRetained x.2)) k with
  | some v => rfl
  | none => rw [hv] at h; simp at h

/-- Witness for C10: two manifests assigning svc/a the values "old" and
"new"; the combined mapping holds the later value. -/
theorem C10_last_write_wins_witness :
    lookupJS (reduce (jptrFrom "" oldSvcFile ++ jptrFrom "" newSvcFile)) "svc/a" =
      lookupJS (reduce (jptrFrom "" newSvcFile)) "svc/a" ∧
    ((reduce (jptrFrom "" oldSvcFile ++ jptrFrom "" newSvcFile)).map
      (fun p => p.1)).Nodup :=
  C10_last_write_wins (jptrFrom "" oldSvcFile) (jptrFrom "" newSvcFile) "svc/a"
    (by decide)

end KvSync
